import Mathlib

/-!
Verification of the pip metadata decoder and dependency-graph builder
(`internal/modules/pip/worker/decoder.go` and its `pipenv` caller).

The Go code is shallowly embedded: Go strings are Lean `String`s, Go maps are
association lists (`List (String × _)`; assignment overwrites the value stored
at an existing key, otherwise appends), Go slices are Lean `List`s, and a Go
run-time panic (index out of range, assignment to an entry in a nil map) is
rendered as `Option.none` of an `Option`-returning function.  A Go `nil` map
is `Option.none`, an initialized map is `Option.some` of its contents.
String primitives used by the Go code (`strings.Split`, `strings.TrimSpace`,
`strings.ToLower`, `strings.NewReplacer(...).Replace`) are re-implemented on
character lists so that every definition reduces inside the kernel.
-/

namespace Pip

/-! ### Go string primitives -/

/-- Whitespace test used by `strings.TrimSpace` (ASCII fragment). -/
def goIsSpace (c : Char) : Bool :=
  c = ' ' || c = '\t' || c = '\n' || c = '\r' || c = '\x0b' || c = '\x0c'

/-- Drop leading and trailing whitespace from a character list. -/
def trimLC (l : List Char) : List Char :=
  ((l.dropWhile goIsSpace).reverse.dropWhile goIsSpace).reverse

/-- `strings.TrimSpace`. -/
def trimStr (s : String) : String :=
  String.mk (trimLC s.data)

/-- Split a character list at every occurrence of the separator character.
Mirrors Go `strings.Split` with a one-character separator: the result is
never empty, and empty segments are kept. -/
def splitCharAux (sep : Char) : List Char → List Char → List (List Char)
  | [], acc => [acc.reverse]
  | c :: rest, acc =>
    if c = sep then acc.reverse :: splitCharAux sep rest []
    else splitCharAux sep rest (c :: acc)

/-- Go `strings.Split s sep` for a one-character separator. -/
def splitGo (s : String) (sep : Char) : List String :=
  (splitCharAux sep s.data []).map String.mk

/-- Go `strings.ToLower` (character-wise). -/
def lowerStr (s : String) : String :=
  String.mk (s.data.map Char.toLower)

/-- Character-list version of a starts-with test. -/
def startsWithLC : List Char → List Char → Bool
  | [], _ => true
  | _ :: _, [] => false
  | p :: ps, c :: cs => p = c && startsWithLC ps cs

/-- One left-to-right pass of `strings.NewReplacer("https://", "", "http://", "")`:
at each position the patterns are tried in order; on a match the pattern is
deleted and scanning resumes after it.  The `fuel` argument only bounds the
recursion; `fuel = length of the input` is always sufficient because every
step consumes at least one character. -/
def stripHttpAux : Nat → List Char → List Char
  | 0, l => l
  | _ + 1, [] => []
  | fuel + 1, c :: cs =>
    if startsWithLC "https://".data (c :: cs) then stripHttpAux fuel (cs.drop 7)
    else if startsWithLC "http://".data (c :: cs) then stripHttpAux fuel (cs.drop 6)
    else c :: stripHttpAux fuel cs

/-- `httpReplacer.Replace` from the Go source:
`strings.NewReplacer("https://", "", "http://", "").Replace`. -/
def httpReplacerReplace (s : String) : String :=
  String.mk (stripHttpAux s.data.length s.data)

/-! ### Go maps as association lists -/

/-- Go map assignment `m[k] = v`: overwrite in place when the key is present,
append otherwise. -/
def insertAssoc {α : Type} : List (String × α) → String → α → List (String × α)
  | [], k, v => [(k, v)]
  | (k0, v0) :: rest, k, v =>
    if k0 = k then (k, v) :: rest else (k0, v0) :: insertAssoc rest k v

/-- Go map read `m[k]` reported as an `Option` (`none` for a missing key). -/
def lookupA {α : Type} : List (String × α) → String → Option α
  | [], _ => none
  | (k0, v0) :: rest, k => if k0 = k then some v0 else lookupA rest k

/-- Go map read `m[k]` for a `map[string]string`, whose zero value is `""`. -/
def lookupD (m : List (String × String)) (k : String) : String :=
  (lookupA m k).getD ""

/-! ### Data model

`Metadata` is `worker.Metadata`;
`Module` is `models.Module` (the `models` package is not part of the sources
under inspection; its fields are the ones read and written by the decoder and
listed in the specification's data model).  Because a `models.Module` holds a
`map[string]*models.Module` of its dependencies, `Module` is a nested
inductive: a scalar part `ModuleData` plus the optional dependency map
(`none` is Go's nil map). -/

inductive ContactType where
  | person
  | organization
deriving DecidableEq, Repr

/-- `models.SupplierContact`; the decoder only assigns it when the author
email is non-empty, so it is rendered as an optional field. -/
structure SupplierContact where
  Typ : ContactType
  Name : String
  Email : String
deriving DecidableEq, Repr

/-- `models.License` (only carried around by the decoder, never inspected). -/
structure LicenseInfo where
  ID : String
  ExtractedText : String
  Comments : String
deriving DecidableEq, Repr

/-- The scalar (non-recursive) fields of `models.Module`, in the order the
dependency-copy literal of `BuildDependencyGraph` lists them. -/
structure ModuleData where
  Version : String
  Name : String
  Path : String
  LocalPath : String
  Supplier : Option SupplierContact
  PackageURL : String
  CheckSum : String
  PackageHomePage : String
  LicenseConcluded : String
  LicenseDeclared : String
  CommentsLicense : String
  OtherLicense : List LicenseInfo
  Copyright : String
  PackageComment : String
  Root : Bool
deriving DecidableEq, Repr

/-- `models.Module`: scalar fields plus the dependency map
`Modules map[string]*models.Module` (`none` = Go nil map). -/
inductive Module where
  | mk (data : ModuleData) (Modules : Option (List (String × Module))) : Module

def Module.data : Module → ModuleData
  | .mk d _ => d

def Module.Modules : Module → Option (List (String × Module))
  | .mk _ ms => ms

def Module.Name (m : Module) : String := m.data.Name

/-- The zero value of `models.Module`: empty scalar fields and a nil map
(what a Go map lookup yields for a missing key). -/
def zeroModule : Module :=
  Module.mk ⟨"", "", "", "", none, "", "", "", "", "", "", [], "", "", false⟩ none

/-- `worker.Metadata`: raw fields, the dependency-name list parsed from
"Requires", and the derived identifier fields. -/
structure Metadata where
  Name : String
  Version : String
  Description : String
  HomePage : String
  Author : String
  AuthorEmail : String
  License : String
  Location : String
  Modules : List String
  ProjectURL : String
  PackageURL : String
  PackageJsonURL : String
  DistInfoPath : String
  LocalPath : String
  LicensePath : String
  MetadataPath : String
  WheelPath : String
deriving DecidableEq, Repr

/-- The zero value of `worker.Metadata` (`new(Metadata)`). -/
def emptyMetadata : Metadata :=
  ⟨"", "", "", "", "", "", "", "", [], "", "", "", "", "", "", "", ""⟩

/-! ### Collaborators defined in repository files outside the inspected core

The key constants, the sentinel writer, the identifier builders, the checksum
helper and the author heuristic live in sibling files of the worker package
that are not among the inspected sources; they are modelled from the
specification. -/

/-- Modelled from the spec: the recognized metadata keys, matched against the
lower-cased keys of the parsed field map. -/
def KeyName : String := "name"

/-- Modelled from the spec: see `KeyName`. -/
def KeyVersion : String := "version"

/-- Modelled from the spec: see `KeyName`. -/
def KeySummary : String := "summary"

/-- Modelled from the spec: see `KeyName`. -/
def KeyHomePage : String := "home-page"

/-- Modelled from the spec: see `KeyName`. -/
def KeyAuthor : String := "author"

/-- Modelled from the spec: see `KeyName`. -/
def KeyAuthorEmail : String := "author-email"

/-- Modelled from the spec: see `KeyName`. -/
def KeyLicense : String := "license"

/-- Modelled from the spec: see `KeyName`. -/
def KeyLocation : String := "location"

/-- Modelled from the spec: see `KeyName`. -/
def KeyRequires : String := "requires"

/-- The "unasserted" sentinel value, distinguishable from the empty string
(the comment in `BuildMetadata` calls it NOASSERTION). -/
def NOASSERTION : String := "NOASSERTION"

/-- Modelled from the spec: `SetMetadataToNoAssertion` (defined outside the
inspected sources) sets every field except `Name` to the sentinel and `Name`
to the package name.  The dependency-name list, being a sequence, is left
empty. -/
def SetMetadataToNoAssertion (metadata : Metadata) (packagename : String) : Metadata :=
  { metadata with
    Name := packagename
    Version := NOASSERTION
    Description := NOASSERTION
    HomePage := NOASSERTION
    Author := NOASSERTION
    AuthorEmail := NOASSERTION
    License := NOASSERTION
    Location := NOASSERTION
    Modules := []
    ProjectURL := NOASSERTION
    PackageURL := NOASSERTION
    PackageJsonURL := NOASSERTION
    DistInfoPath := NOASSERTION
    LocalPath := NOASSERTION
    LicensePath := NOASSERTION
    MetadataPath := NOASSERTION
    WheelPath := NOASSERTION }

/-- Modelled from the spec: a template-built registry URL from name+version. -/
def BuildProjectUrl (name version : String) : String :=
  "https://pypi.org/project/" ++ name ++ "/" ++ version

/-- Modelled from the spec: a template-built registry URL from name+version. -/
def BuildPackageUrl (name version : String) : String :=
  "https://pypi.org/project/" ++ name ++ "/" ++ version ++ "/"

/-- Modelled from the spec: a template-built registry URL from name+version. -/
def BuildPackageJsonUrl (name version : String) : String :=
  "https://pypi.org/pypi/" ++ name ++ "/" ++ version ++ "/json"

/-- Modelled from the spec: filesystem path combining location, name, version
(package dist-info convention). -/
def BuildDistInfoPath (location name version : String) : String :=
  location ++ "/" ++ name ++ "-" ++ version ++ ".dist-info"

/-- Modelled from the spec: filesystem path combining location and name. -/
def BuildLocalPath (location name : String) : String :=
  location ++ "/" ++ name

/-- Modelled from the spec: fixed filename under the dist-info path. -/
def BuildLicenseUrl (distinfopath : String) : String :=
  distinfopath ++ "/LICENSE"

/-- Modelled from the spec: fixed filename under the dist-info path. -/
def BuildMetadataPath (distinfopath : String) : String :=
  distinfopath ++ "/METADATA"

/-- Modelled from the spec: fixed filename under the dist-info path. -/
def BuildWheelPath (distinfopath : String) : String :=
  distinfopath ++ "/WHEEL"

/-- Modelled from the spec: the checksum helper is best-effort and may return
an empty value; no claim depends on its output. -/
def GetPackageChecksum (_name _packagejsonurl _wheelpath : String) : String :=
  ""

/-- Modelled from the spec: organizational heuristic on author name or email;
no claim depends on its outcome. -/
def IsAuthorAnOrganization (author _authoremail : String) : Bool :=
  (splitGo (lowerStr author) ' ').contains "inc"

/-! ### The record parser (`decoder.go`) -/

/-- One iteration of the line loop of `ParseMetadata`: split the line on every
colon; skip it when no colon was found; otherwise trim element 1, re-join any
further elements with a literal colon, and store the value under the
lower-cased key. -/
def parseLine (pkgDataMap : List (String × String)) (resline : String) :
    List (String × String) :=
  match splitGo resline ':' with
  | [] => pkgDataMap
  | [_] => pkgDataMap
  | k :: v1 :: rest =>
    insertAssoc pkgDataMap (lowerStr k)
      (rest.foldl (fun value r => value ++ ":" ++ r) (trimStr v1))

/-- The field-map construction of `ParseMetadata`: split the raw text into
lines and fold `parseLine` over them. -/
def ParseMetadataMap (packagedetails : String) : List (String × String) :=
  (splitGo packagedetails '\n').foldl parseLine []

/-- `SetMetadataValues`: copy the recognized keys out of the field map; the
home page passes through `httpReplacer`; a non-empty "requires" value is
split on commas and each element trimmed, otherwise the dependency-name list
is left as it was. -/
def SetMetadataValues (matadata : Metadata) (datamap : List (String × String)) :
    Metadata :=
  let md := { matadata with
    Name := lookupD datamap KeyName
    Version := lookupD datamap KeyVersion
    Description := lookupD datamap KeySummary
    HomePage := httpReplacerReplace (lookupD datamap KeyHomePage)
    Author := lookupD datamap KeyAuthor
    AuthorEmail := lookupD datamap KeyAuthorEmail
    License := lookupD datamap KeyLicense
    Location := lookupD datamap KeyLocation }
  if (lookupD datamap KeyRequires).length ≠ 0 then
    { md with Modules := (splitGo (lookupD datamap KeyRequires) ',').map trimStr }
  else md

/-- `ParseMetadata`: build the field map, then set the metadata values. -/
def ParseMetadata (metadata : Metadata) (packagedetails : String) : Metadata :=
  SetMetadataValues metadata (ParseMetadataMap packagedetails)

/-- The derived-identifier block of `BuildMetadata` (the assignments that
follow parsing): registry URLs — with the home-page override of PackageURL —
and filesystem paths. -/
def deriveIdentifiers (metadata : Metadata) : Metadata :=
  let md2 := { metadata with
    ProjectURL := BuildProjectUrl metadata.Name metadata.Version
    PackageURL := if metadata.HomePage.length > 0 then metadata.HomePage
                  else BuildPackageUrl metadata.Name metadata.Version
    PackageJsonURL := BuildPackageJsonUrl metadata.Name metadata.Version }
  { md2 with
    DistInfoPath := BuildDistInfoPath md2.Location md2.Name md2.Version
    LocalPath := BuildLocalPath md2.Location md2.Name
    LicensePath := BuildLicenseUrl (BuildDistInfoPath md2.Location md2.Name md2.Version)
    MetadataPath := BuildMetadataPath (BuildDistInfoPath md2.Location md2.Name md2.Version)
    WheelPath := BuildWheelPath (BuildDistInfoPath md2.Location md2.Name md2.Version) }

/-- `BuildMetadata`: the fetch result is the pair returned by the
`getPkgDetailsFunc` collaborator (raw text, error flag).  On error the record
is set to the sentinel — and then, exactly as in the source, the raw text is
parsed anyway (there is no early return) and the derived fields are
computed. -/
def BuildMetadata (fetched : String × Bool) (packagename : String)
    (metadata : Metadata) : Metadata :=
  let md0 := if fetched.2 then SetMetadataToNoAssertion metadata packagename else metadata
  deriveIdentifiers (ParseMetadata md0 fetched.1)

/-- `BuildModule`: project a finalized metadata record to a module.  The
supplier contact is only present when the author email is non-empty; the
dependency map is initialized empty (`some []`, a non-nil Go map). -/
def BuildModule (root : Bool) (metadata : Metadata) : Module :=
  Module.mk
    { Version := metadata.Version
      Name := metadata.Name
      Path := metadata.ProjectURL
      LocalPath := metadata.LocalPath
      Supplier :=
        if metadata.AuthorEmail.length > 0 then
          some { Typ := if IsAuthorAnOrganization metadata.Author metadata.AuthorEmail
                        then ContactType.organization else ContactType.person
                 Name := metadata.Author
                 Email := metadata.AuthorEmail }
        else none
      PackageURL := metadata.PackageURL
      CheckSum := GetPackageChecksum metadata.Name metadata.PackageJsonURL metadata.WheelPath
      PackageHomePage := metadata.HomePage
      LicenseConcluded := ""
      LicenseDeclared := ""
      CommentsLicense := ""
      OtherLicense := []
      Copyright := ""
      PackageComment := metadata.Description
      Root := root }
    (some [])

/-! ### The dependency-graph builder (`decoder.go`) -/

/-- The dependency-copy literal of `BuildDependencyGraph`: every scalar field
of the dependency module is copied, field for field and in source order; the
`Modules` field is not listed in the literal, so the copy's dependency map is
the zero value — a nil map. -/
def copyModule (depModule : Module) : Module :=
  Module.mk
    { Version := depModule.data.Version
      Name := depModule.data.Name
      Path := depModule.data.Path
      LocalPath := depModule.data.LocalPath
      Supplier := depModule.data.Supplier
      PackageURL := depModule.data.PackageURL
      CheckSum := depModule.data.CheckSum
      PackageHomePage := depModule.data.PackageHomePage
      LicenseConcluded := depModule.data.LicenseConcluded
      LicenseDeclared := depModule.data.LicenseDeclared
      CommentsLicense := depModule.data.CommentsLicense
      OtherLicense := depModule.data.OtherLicense
      Copyright := depModule.data.Copyright
      PackageComment := depModule.data.PackageComment
      Root := depModule.data.Root }
    none

/-- The index of the module a `moduleMap` lookup resolves to.  The Go code
builds `moduleMap[strings.ToLower(module.Name)] = module` by iterating the
slice in order, so the map holds, for each lower-cased name, the last slice
element carrying it; the struct stored in the map shares its `Modules` map
pointer with that slice element.  The index records which element that is. -/
def lastIdx : List Module → String → Option Nat
  | [], _ => none
  | m :: rest, key =>
    match lastIdx rest key with
    | some j => some (j + 1)
    | none => if lowerStr m.Name = key then some 0 else none

/-- The Go expression `moduleMap[key]`: the stored module, or the zero value
`models.Module{}` when the key is missing. -/
def depOrZero (mods : List Module) (key : String) : Module :=
  ((lastIdx mods key).bind (fun i => mods.get? i)).getD zeroModule

/-- One iteration of the inner loop of `BuildDependencyGraph`:
`mod.Modules[depModule.Name] = &models.Module{...}`.  `mods` is the slice the
`moduleMap` was built from (dependency values are read from it), `ms` the
current state of that slice, `ownerIdx` the element aliased by
`moduleMap[strings.ToLower(pkgmeta.Name)]`.  Assigning through a nil
`Modules` map is a run-time panic, rendered as `none`. -/
def processDep (mods ms : List Module) (ownerIdx : Nat) (modname : String) :
    Option (List Module) :=
  let depModule := depOrZero mods (lowerStr modname)
  match ms.get? ownerIdx with
  | none => none
  | some owner =>
    match owner.Modules with
    | none => none
    | some mp =>
      some (ms.set ownerIdx
        (Module.mk owner.data (some (insertAssoc mp depModule.Name (copyModule depModule)))))

/-- One iteration of the outer loop of `BuildDependencyGraph`: resolve the
owning module of a metadata record and insert one dependency copy per name in
its `Modules` list.  When the owner lookup misses, `mod` is the zero module,
whose `Modules` map is nil: the record's first dependency insertion panics;
with no dependencies the record is a no-op. -/
def processRec (mods ms : List Module) (pkgmeta : Metadata) : Option (List Module) :=
  match lastIdx mods (lowerStr pkgmeta.Name) with
  | some i => pkgmeta.Modules.foldlM (fun s modname => processDep mods s i modname) ms
  | none => match pkgmeta.Modules with
    | [] => some ms
    | _ :: _ => none

/-- `BuildDependencyGraph`.  The metadata table argument is rendered as the
list of its records in iteration order (Go map iteration order is
unspecified; only the values are read).  A normal return (the function always
returns a nil error) is `some` of the mutated module slice; a run-time panic
is `none`. -/
def BuildDependencyGraph (modules : List Module) (pkgsMetadata : List Metadata) :
    Option (List Module) :=
  pkgsMetadata.foldlM (fun ms pkgmeta => processRec modules ms pkgmeta) modules

/-- `MergeMetadataMap`: insert every entry of the root table into the
non-root table (overwriting on key collision) and return the non-root
table. -/
def MergeMetadataMap (root nonroot : List (String × Metadata)) :
    List (String × Metadata) :=
  root.foldl (fun nr kv => insertAssoc nr kv.1 kv.2) nonroot

/-- Reference-level rendering of `MergeMetadataMap` for its frame effect: the
two map arguments are references into a store of tables; the function
overwrites the table behind the non-root reference with the merged contents
and returns that same reference, leaving every other table untouched. -/
def MergeMetadataMapRef (store : List (List (String × Metadata)))
    (root nonroot : Nat) : List (List (String × Metadata)) × Nat :=
  (store.set nonroot (MergeMetadataMap (store.getD root []) (store.getD nonroot [])),
   nonroot)

/-- `RemoveDuplicateRootModule`: drop every non-first module whose name
equals the first (root) module's name.  `modules[0]` on an empty slice is an
index-out-of-range panic, rendered as `none`. -/
def RemoveDuplicateRootModule (modules : List Module) : Option (List Module) :=
  match modules with
  | [] => none
  | rootMod :: rest => some (rootMod :: rest.filter (fun mod => mod.Name ≠ rootMod.Name))

/-- The final statement `return modules[0], nil` of `pipenv.fetchRootModule`,
applied to the module list the body accumulated (which stays empty whenever
the root-module push into the virtual environment did not succeed):
`modules[0]` on an empty slice is an index-out-of-range panic, rendered as
`none`. -/
def fetchRootModuleResult (modules : List Module) : Option Module :=
  modules.get? 0

/-! ### Sample values and statement-side vocabulary -/

/-- A module with the given name and version, an initialized empty dependency
map and every other field empty, as `BuildModule` produces for a minimal
metadata record. -/
def mkMod (name ver : String) : Module :=
  Module.mk ⟨ver, name, "", "", none, "", "", "", "", "", "", [], "", "", false⟩ (some [])

/-- A metadata record with the given name and dependency-name list and every
other field empty. -/
def recMD (name : String) (deps : List String) : Metadata :=
  { emptyMetadata with Name := name, Modules := deps }

/-- The override behaviour the claim describes for the home page: strip only
a leading scheme.  Stated for comparison with `httpReplacerReplace`, which
deletes every occurrence. -/
def stripSchemeLeading (s : String) : String :=
  if startsWithLC "https://".data s.data then String.mk (s.data.drop 8)
  else if startsWithLC "http://".data s.data then String.mk (s.data.drop 7)
  else s

/-- The dependency-map entry stored at position `i` of the module slice under
key `k` (reading through a nil map gives `none`). -/
def lookAt (ms : List Module) (i : Nat) (k : String) : Option Module :=
  (ms.get? i).bind (fun m => m.Modules.bind (fun mp => lookupA mp k))

/-- The key under which a dependency named `modname` is inserted: the
exact-cased `Name` of the module its `moduleMap` lookup resolves to (the
empty string when the lookup misses and yields the zero module). -/
def keyOf (mods : List Module) (modname : String) : String :=
  (depOrZero mods (lowerStr modname)).Name

/-- The value stored under key `k` by any dependency insertion that targets
`k`, when no module has an empty name: the detached copy of the module the
lookup of `k` resolves to. -/
def Vval (mods : List Module) (k : String) : Module :=
  copyModule (depOrZero mods (lowerStr k))

/-- Position `i`, key `k` receives an insertion while linking `recs`. -/
def Written (mods : List Module) (recs : List Metadata) (i : Nat) (k : String) : Prop :=
  ∃ pkgmeta ∈ recs, lastIdx mods (lowerStr pkgmeta.Name) = some i ∧
    ∃ dn ∈ pkgmeta.Modules, keyOf mods dn = k

/-- A metadata record that links without a run-time panic: either it names no
dependencies, or its owner resolves to a module whose dependency map is
non-nil. -/
def Succ (mods : List Module) (pkgmeta : Metadata) : Prop :=
  pkgmeta.Modules = [] ∨
    ∃ j m, lastIdx mods (lowerStr pkgmeta.Name) = some j ∧
      mods.get? j = some m ∧ m.Modules.isSome

/-- Two modules with the same scalar fields and the same map nil-ness;
linking only ever grows dependency-map contents, so it preserves this
relation pointwise. -/
def SkelR (a b : Module) : Prop :=
  a.data = b.data ∧ a.Modules.isSome = b.Modules.isSome

/-- Pointwise `SkelR` over module slices. -/
def Skel (a b : List Module) : Prop :=
  List.Forall₂ SkelR a b

/-- Sample metadata records for the merge theorems. -/
def mdSample (tag : String) : Metadata :=
  { emptyMetadata with Name := tag, Version := tag }

/-! ### Basic lemmas -/

@[simp] theorem Module.data_mk (d : ModuleData) (ms : Option (List (String × Module))) :
    (Module.mk d ms).data = d := rfl

@[simp] theorem Module.Modules_mk (d : ModuleData) (ms : Option (List (String × Module))) :
    (Module.mk d ms).Modules = ms := rfl

@[simp] theorem Module.Name_mk (d : ModuleData) (ms : Option (List (String × Module))) :
    (Module.mk d ms).Name = d.Name := rfl

theorem Module.eta (m : Module) : Module.mk m.data m.Modules = m := by
  cases m
  rfl

@[simp] theorem copyModule_data (m : Module) : (copyModule m).data = m.data := rfl

@[simp] theorem copyModule_Modules (m : Module) : (copyModule m).Modules = none := rfl

theorem copyModule_eq_mk (m : Module) : copyModule m = Module.mk m.data none := rfl

theorem copyModule_congr {a b : Module} (h : a.data = b.data) :
    copyModule a = copyModule b := by
  rw [copyModule_eq_mk, copyModule_eq_mk, h]

theorem lookupA_insertAssoc {α : Type} (m : List (String × α)) (k k2 : String) (v : α) :
    lookupA (insertAssoc m k v) k2 = if k2 = k then some v else lookupA m k2 := by
  induction m with
  | nil =>
    by_cases h : k2 = k
    · simp [insertAssoc, lookupA, h]
    · simp [insertAssoc, lookupA, h, Ne.symm h]
  | cons p rest ih =>
    obtain ⟨k0, v0⟩ := p
    by_cases h0 : k0 = k
    · subst h0
      by_cases h : k2 = k0
      · simp [insertAssoc, lookupA, h]
      · simp [insertAssoc, lookupA, h, Ne.symm h]
    · by_cases h : k2 = k0
      · subst h
        simp [insertAssoc, lookupA, h0]
      · simp [insertAssoc, lookupA, h0, h, Ne.symm h, ih]

theorem lowerStr_eq_empty {s : String} (h : lowerStr s = "") : s = "" := by
  have h2 : s.data.map Char.toLower = ([] : List Char) := congrArg String.data h
  have h3 : s.data = [] := List.map_eq_nil_iff.mp h2
  cases s with
  | mk l =>
    rw [show (String.mk l).data = l from rfl] at h3
    rw [h3]

theorem lastIdx_get {mods : List Module} {key : String} {j : Nat}
    (h : lastIdx mods key = some j) :
    ∃ m, mods.get? j = some m ∧ lowerStr m.Name = key := by
  induction mods generalizing j with
  | nil => simp [lastIdx] at h
  | cons m rest ih =>
    cases hr : lastIdx rest key with
    | some j2 =>
      simp only [lastIdx, hr, Option.some.injEq] at h
      subst h
      obtain ⟨m2, hm2, hl⟩ := ih hr
      exact ⟨m2, by simpa using hm2, hl⟩
    | none =>
      by_cases hname : lowerStr m.Name = key
      · simp only [lastIdx, hr, hname, if_true, Option.some.injEq] at h
        subst h
        exact ⟨m, rfl, hname⟩
      · simp [lastIdx, hr, hname] at h

theorem lastIdx_lt {mods : List Module} {key : String} {j : Nat}
    (h : lastIdx mods key = some j) : j < mods.length := by
  obtain ⟨m, hm, _⟩ := lastIdx_get h
  exact List.get?_eq_some.mp hm |>.1

theorem lastIdx_empty_none {mods : List Module} (hne : ∀ m ∈ mods, m.Name ≠ "") :
    lastIdx mods "" = none := by
  induction mods with
  | nil => rfl
  | cons m rest ih =>
    have hr : lastIdx rest "" = none := ih (fun x hx => hne x (List.mem_cons_of_mem m hx))
    have hm : ¬ (lowerStr m.Name = "") := by
      intro h
      exact hne m (List.mem_cons_self m rest) (lowerStr_eq_empty h)
    simp [lastIdx, hr, hm]

/-! ### Skeleton lemmas: linking preserves scalar fields and map nil-ness -/

theorem skelR_refl (m : Module) : SkelR m m := ⟨rfl, rfl⟩

theorem skel_refl (l : List Module) : Skel l l :=
  List.forall₂_same.mpr (fun m _ => skelR_refl m)

theorem skel_get? {a b : List Module} (h : Skel a b) (i : Nat) :
    (a.get? i = none ∧ b.get? i = none) ∨
      ∃ x y, a.get? i = some x ∧ b.get? i = some y ∧ SkelR x y := by
  induction h generalizing i with
  | nil => exact Or.inl ⟨rfl, rfl⟩
  | cons hxy hrest ih =>
    cases i with
    | zero => exact Or.inr ⟨_, _, rfl, rfl, hxy⟩
    | succ n => simpa using ih n

theorem skel_get?_right {a b : List Module} (h : Skel a b) {i : Nat} {x : Module}
    (hx : a.get? i = some x) : ∃ y, b.get? i = some y ∧ SkelR x y := by
  rcases skel_get? h i with ⟨h1, _⟩ | ⟨x2, y, hx2, hy, hr⟩
  · rw [h1] at hx
    cases hx
  · rw [hx2] at hx
    cases hx
    exact ⟨y, hy, hr⟩

theorem skel_get?_left {a b : List Module} (h : Skel a b) {i : Nat} {y : Module}
    (hy : b.get? i = some y) : ∃ x, a.get? i = some x ∧ SkelR x y := by
  rcases skel_get? h i with ⟨_, h2⟩ | ⟨x, y2, hx, hy2, hr⟩
  · rw [h2] at hy
    cases hy
  · rw [hy2] at hy
    cases hy
    exact ⟨x, hx, hr⟩

theorem skel_name_eq {x y : Module} (h : SkelR x y) : x.Name = y.Name := by
  unfold Module.Name
  rw [h.1]

theorem skel_mem {a b : List Module} (h : Skel a b) {y : Module} (hy : y ∈ b) :
    ∃ x ∈ a, SkelR x y := by
  induction h with
  | nil => cases hy
  | cons hxy hrest ih =>
    rcases List.mem_cons.mp hy with h1 | h2
    · subst h1
      exact ⟨_, List.mem_cons_self _ _, hxy⟩
    · obtain ⟨x, hx, hr⟩ := ih h2
      exact ⟨x, List.mem_cons_of_mem _ hx, hr⟩

theorem skel_set {a b : List Module} (h : Skel a b) {i : Nat} {x y : Module}
    (hx : a.get? i = some x) (hr : SkelR x y) : Skel a (b.set i y) := by
  induction h generalizing i with
  | nil => cases hx
  | cons hxy hrest ih =>
    cases i with
    | zero =>
      simp only [List.get?_cons_zero, Option.some.injEq] at hx
      subst hx
      exact List.Forall₂.cons hr hrest
    | succ n =>
      simp only [List.get?_cons_succ] at hx
      simp only [List.set_cons_succ]
      exact List.Forall₂.cons hxy (ih hx)

theorem lastIdx_congr {a b : List Module} (h : Skel a b) (key : String) :
    lastIdx a key = lastIdx b key := by
  induction h with
  | nil => rfl
  | cons hxy hrest ih =>
    simp only [lastIdx, ih, skel_name_eq hxy]

theorem hne_congr {a b : List Module} (h : Skel a b) (hne : ∀ m ∈ a, m.Name ≠ "") :
    ∀ m ∈ b, m.Name ≠ "" := by
  intro y hy
  obtain ⟨x, hx, hr⟩ := skel_mem h hy
  rw [← skel_name_eq hr]
  exact hne x hx

theorem depOrZero_data_congr {a b : List Module} (h : Skel a b) (key : String) :
    (depOrZero a key).data = (depOrZero b key).data := by
  unfold depOrZero
  rw [← lastIdx_congr h key]
  cases hl : lastIdx a key with
  | none => rfl
  | some j =>
    rcases skel_get? h j with ⟨h1, h2⟩ | ⟨x, y, hx, hy, hr⟩
    · rw [Option.some_bind, Option.some_bind, h1, h2]
    · rw [Option.some_bind, Option.some_bind, hx, hy, Option.getD_some, Option.getD_some]
      exact hr.1

theorem keyOf_congr {a b : List Module} (h : Skel a b) (dn : String) :
    keyOf a dn = keyOf b dn := by
  unfold keyOf Module.Name
  rw [depOrZero_data_congr h]

theorem Vval_congr {a b : List Module} (h : Skel a b) (k : String) :
    Vval a k = Vval b k :=
  copyModule_congr (depOrZero_data_congr h (lowerStr k))

theorem Succ_congr {a b : List Module} (h : Skel a b) (pm : Metadata) :
    Succ a pm ↔ Succ b pm := by
  unfold Succ
  rw [lastIdx_congr h]
  constructor
  · rintro (h1 | ⟨j, m, hj, hm, hs⟩)
    · exact Or.inl h1
    · obtain ⟨y, hy, hr⟩ := skel_get?_right h hm
      exact Or.inr ⟨j, y, hj, hy, by rw [← hr.2]; exact hs⟩
  · rintro (h1 | ⟨j, m, hj, hm, hs⟩)
    · exact Or.inl h1
    · obtain ⟨x, hx, hr⟩ := skel_get?_left h hm
      exact Or.inr ⟨j, x, hj, hx, by rw [hr.2]; exact hs⟩

theorem Written_congr {a b : List Module} (h : Skel a b) (recs : List Metadata)
    (i : Nat) (k : String) : Written a recs i k ↔ Written b recs i k := by
  unfold Written
  constructor
  · rintro ⟨pm, hpm, hidx, dn, hdn, hk⟩
    exact ⟨pm, hpm, by rw [← lastIdx_congr h]; exact hidx, dn, hdn,
      by rw [← keyOf_congr h]; exact hk⟩
  · rintro ⟨pm, hpm, hidx, dn, hdn, hk⟩
    exact ⟨pm, hpm, by rw [lastIdx_congr h]; exact hidx, dn, hdn,
      by rw [keyOf_congr h]; exact hk⟩

theorem Written_perm {mods : List Module} {recs recs' : List Metadata}
    (h : List.Perm recs recs') (i : Nat) (k : String) :
    Written mods recs i k ↔ Written mods recs' i k := by
  unfold Written
  constructor
  · rintro ⟨pm, hpm, rest⟩
    exact ⟨pm, h.mem_iff.mp hpm, rest⟩
  · rintro ⟨pm, hpm, rest⟩
    exact ⟨pm, h.mem_iff.mpr hpm, rest⟩

/-! ### Invariant lemmas for `BuildDependencyGraph` -/

theorem copy_dep_eq_Vval {mods : List Module} (hne : ∀ m ∈ mods, m.Name ≠ "")
    (dn : String) :
    copyModule (depOrZero mods (lowerStr dn)) = Vval mods (keyOf mods dn) := by
  unfold Vval keyOf
  cases hl : lastIdx mods (lowerStr dn) with
  | none =>
    have hz : depOrZero mods (lowerStr dn) = zeroModule := by
      unfold depOrZero
      rw [hl]
      rfl
    rw [hz]
    have h0 : lastIdx mods (lowerStr zeroModule.Name) = none := lastIdx_empty_none hne
    have hz2 : depOrZero mods (lowerStr zeroModule.Name) = zeroModule := by
      unfold depOrZero
      rw [h0]
      rfl
    rw [hz2]
  | some j =>
    obtain ⟨m, hm, hlow⟩ := lastIdx_get hl
    have hd : depOrZero mods (lowerStr dn) = m := by
      unfold depOrZero
      rw [hl, Option.some_bind, hm, Option.getD_some]
    rw [hd, hlow, hd]

theorem lookAt_set_insert {ms : List Module} {oi : Nat} {owner : Module}
    {mp : List (String × Module)} (ho : ms.get? oi = some owner)
    (hm : owner.Modules = some mp) (K : String) (V : Module) (i : Nat) (k : String) :
    (i = oi ∧ k = K →
      lookAt (ms.set oi (Module.mk owner.data (some (insertAssoc mp K V)))) i k = some V) ∧
    (¬ (i = oi ∧ k = K) →
      lookAt (ms.set oi (Module.mk owner.data (some (insertAssoc mp K V)))) i k =
        lookAt ms i k) := by
  by_cases hio : i = oi
  · subst hio
    have hbase : lookAt ms i k = lookupA mp k := by
      unfold lookAt
      rw [ho, Option.some_bind, hm, Option.some_bind]
    have hnew :
        lookAt (ms.set i (Module.mk owner.data (some (insertAssoc mp K V)))) i k =
          lookupA (insertAssoc mp K V) k := by
      unfold lookAt
      rw [List.get?_set_eq, ho]
      rfl
    constructor
    · rintro ⟨-, hk⟩
      subst hk
      rw [hnew, lookupA_insertAssoc]
      simp
    · intro hcon
      have hk : ¬ k = K := fun hh => hcon ⟨rfl, hh⟩
      rw [hnew, lookupA_insertAssoc, if_neg hk, hbase]
  · constructor
    · rintro ⟨hh, -⟩
      exact absurd hh hio
    · intro _
      unfold lookAt
      rw [List.get?_set_ne _ _ (fun hh => hio hh.symm)]

theorem processDep_eq {mods ms : List Module} {oi : Nat} {owner : Module}
    {mp : List (String × Module)} (hne : ∀ m ∈ mods, m.Name ≠ "")
    (ho : ms.get? oi = some owner) (hm : owner.Modules = some mp) (dn : String) :
    processDep mods ms oi dn =
      some (ms.set oi (Module.mk owner.data
        (some (insertAssoc mp (keyOf mods dn) (Vval mods (keyOf mods dn)))))) := by
  simp only [processDep, ho, hm]
  rw [copy_dep_eq_Vval hne dn]
  rfl

theorem processDep_none {mods ms : List Module} {oi : Nat} {owner : Module}
    (ho : ms.get? oi = some owner) (hm : owner.Modules = none) (dn : String) :
    processDep mods ms oi dn = none := by
  simp only [processDep, ho, hm]

theorem fold_deps {mods : List Module} (hne : ∀ m ∈ mods, m.Name ≠ "") (oi : Nat) :
    ∀ (dns : List String) (ms : List Module), Skel mods ms →
      (∃ owner mp, ms.get? oi = some owner ∧ owner.Modules = some mp) →
      ∃ ms', dns.foldlM (fun s dn => processDep mods s oi dn) ms = some ms' ∧
        Skel mods ms' ∧
        (∃ owner mp, ms'.get? oi = some owner ∧ owner.Modules = some mp) ∧
        ∀ i k,
          (i = oi ∧ (∃ dn ∈ dns, keyOf mods dn = k) →
            lookAt ms' i k = some (Vval mods k)) ∧
          (¬ (i = oi ∧ ∃ dn ∈ dns, keyOf mods dn = k) →
            lookAt ms' i k = lookAt ms i k) := by
  intro dns
  induction dns with
  | nil =>
    intro ms hsk hown
    refine ⟨ms, rfl, hsk, hown, ?_⟩
    intro i k
    constructor
    · rintro ⟨-, dn, hdn, -⟩
      cases hdn
    · intro _
      rfl
  | cons dn dns ih =>
    intro ms hsk hown
    obtain ⟨owner, mp, ho, hm⟩ := hown
    obtain ⟨x, hx, hrx⟩ := skel_get?_left hsk ho
    have hstep := processDep_eq hne ho hm dn
    have hsk1 : Skel mods (ms.set oi (Module.mk owner.data
        (some (insertAssoc mp (keyOf mods dn) (Vval mods (keyOf mods dn)))))) := by
      apply skel_set hsk hx
      refine ⟨?_, ?_⟩
      · rw [hrx.1]
        rfl
      · rw [hrx.2, hm]
        rfl
    have hown1 : ∃ owner2 mp2,
        (ms.set oi (Module.mk owner.data
          (some (insertAssoc mp (keyOf mods dn) (Vval mods (keyOf mods dn)))))).get? oi =
            some owner2 ∧ owner2.Modules = some mp2 := by
      refine ⟨Module.mk owner.data
          (some (insertAssoc mp (keyOf mods dn) (Vval mods (keyOf mods dn)))),
        insertAssoc mp (keyOf mods dn) (Vval mods (keyOf mods dn)), ?_, rfl⟩
      rw [List.get?_set_eq, ho]
      rfl
    obtain ⟨ms', hfold, hsk', hown', hlook⟩ := ih _ hsk1 hown1
    have hins := lookAt_set_insert ho hm (keyOf mods dn) (Vval mods (keyOf mods dn))
    refine ⟨ms', ?_, hsk', hown', ?_⟩
    · rw [List.foldlM_cons, hstep]
      exact hfold
    · intro i k
      constructor
      · rintro ⟨hio, dn2, hdn2, hkey⟩
        subst hio
        rcases List.mem_cons.mp hdn2 with h1 | h2
        · subst h1
          by_cases hmem : ∃ dn3 ∈ dns, keyOf mods dn3 = k
          · exact (hlook i k).1 ⟨rfl, hmem⟩
          · rw [(hlook i k).2 (fun hh => hmem hh.2)]
            have := (hins i k).1 ⟨rfl, hkey.symm⟩
            rw [this, hkey]
        · exact (hlook i k).1 ⟨rfl, dn2, h2, hkey⟩
      · intro hcon
        have hmem : ¬ (i = oi ∧ ∃ dn3 ∈ dns, keyOf mods dn3 = k) := by
          rintro ⟨hio, dn3, hdn3, hkey⟩
          exact hcon ⟨hio, dn3, List.mem_cons_of_mem _ hdn3, hkey⟩
        have hkK : ¬ (i = oi ∧ k = keyOf mods dn) := by
          rintro ⟨hio, hkey⟩
          exact hcon ⟨hio, dn, List.mem_cons_self _ _, hkey.symm⟩
        rw [(hlook i k).2 hmem, (hins i k).2 hkK]

theorem processRec_some {mods : List Module} (hne : ∀ m ∈ mods, m.Name ≠ "")
    {ms : List Module} (hsk : Skel mods ms) {pm : Metadata} (hsucc : Succ mods pm) :
    ∃ ms', processRec mods ms pm = some ms' ∧ Skel mods ms' ∧
      ∀ i k,
        ((lastIdx mods (lowerStr pm.Name) = some i ∧ ∃ dn ∈ pm.Modules, keyOf mods dn = k) →
          lookAt ms' i k = some (Vval mods k)) ∧
        (¬ (lastIdx mods (lowerStr pm.Name) = some i ∧ ∃ dn ∈ pm.Modules, keyOf mods dn = k) →
          lookAt ms' i k = lookAt ms i k) := by
  rcases hsucc with h1 | ⟨j, m, hj, hm, hs⟩
  · refine ⟨ms, ?_, hsk, ?_⟩
    · cases hl : lastIdx mods (lowerStr pm.Name) <;> simp [processRec, h1, hl]
    · intro i k
      constructor
      · rintro ⟨-, dn, hdn, -⟩
        rw [h1] at hdn
        cases hdn
      · intro _
        rfl
  · obtain ⟨y, hy, hry⟩ := skel_get?_right hsk hm
    have hys : y.Modules.isSome := by
      rw [← hry.2]
      exact hs
    obtain ⟨mp, hmp⟩ := Option.isSome_iff_exists.mp hys
    obtain ⟨ms', hfold, hsk', hown', hlook⟩ :=
      fold_deps hne j pm.Modules ms hsk ⟨y, mp, hy, hmp⟩
    refine ⟨ms', ?_, hsk', ?_⟩
    · simp only [processRec, hj]
      exact hfold
    · intro i k
      constructor
      · rintro ⟨hidx, hex⟩
        rw [hj] at hidx
        obtain rfl : j = i := Option.some.inj hidx
        exact (hlook j k).1 ⟨rfl, hex⟩
      · intro hcon
        apply (hlook i k).2
        rintro ⟨hij, hex⟩
        subst hij
        exact hcon ⟨hj, hex⟩

theorem processRec_none {mods ms : List Module} (hsk : Skel mods ms)
    {pm : Metadata} (hfail : ¬ Succ mods pm) :
    processRec mods ms pm = none := by
  unfold Succ at hfail
  push_neg at hfail
  obtain ⟨hmods, hforall⟩ := hfail
  cases hpm : pm.Modules with
  | nil => exact absurd hpm hmods
  | cons d ds =>
    cases hl : lastIdx mods (lowerStr pm.Name) with
    | none => simp [processRec, hl, hpm]
    | some j =>
      obtain ⟨m, hm, -⟩ := lastIdx_get hl
      have hs := hforall j m hl hm
      have hmn : m.Modules = none := Option.not_isSome_iff_eq_none.mp hs
      obtain ⟨y, hy, hry⟩ := skel_get?_right hsk hm
      have hyn : y.Modules = none := by
        apply Option.not_isSome_iff_eq_none.mp
        intro hc
        apply hs
        rw [hry.2]
        exact hc
      simp only [processRec, hl, hpm, List.foldlM_cons]
      rw [processDep_none hy hyn]
      rfl

theorem fold_recs {mods : List Module} (hne : ∀ m ∈ mods, m.Name ≠ "") :
    ∀ (recs : List Metadata) (ms : List Module), Skel mods ms →
      (∀ pm ∈ recs, Succ mods pm) →
      ∃ ms', recs.foldlM (fun s pm => processRec mods s pm) ms = some ms' ∧
        Skel mods ms' ∧
        ∀ i k, (Written mods recs i k → lookAt ms' i k = some (Vval mods k)) ∧
          (¬ Written mods recs i k → lookAt ms' i k = lookAt ms i k) := by
  intro recs
  induction recs with
  | nil =>
    intro ms hsk _
    refine ⟨ms, rfl, hsk, ?_⟩
    intro i k
    constructor
    · rintro ⟨pm, hpm, -⟩
      cases hpm
    · intro _
      rfl
  | cons pm recs ih =>
    intro ms hsk hall
    obtain ⟨ms1, hstep, hsk1, hlook1⟩ :=
      processRec_some hne hsk (hall pm (List.mem_cons_self _ _))
    obtain ⟨ms', hfold, hsk', hlook'⟩ :=
      ih ms1 hsk1 (fun q hq => hall q (List.mem_cons_of_mem _ hq))
    refine ⟨ms', ?_, hsk', ?_⟩
    · rw [List.foldlM_cons, hstep]
      exact hfold
    · intro i k
      constructor
      · rintro ⟨q, hq, hidx, dn, hdn, hkey⟩
        rcases List.mem_cons.mp hq with h1 | h2
        · subst h1
          by_cases hw : Written mods recs i k
          · exact (hlook' i k).1 hw
          · rw [(hlook' i k).2 hw]
            exact (hlook1 i k).1 ⟨hidx, dn, hdn, hkey⟩
        · exact (hlook' i k).1 ⟨q, h2, hidx, dn, hdn, hkey⟩
      · intro hcon
        have hw : ¬ Written mods recs i k := by
          rintro ⟨q, hq, rest⟩
          exact hcon ⟨q, List.mem_cons_of_mem _ hq, rest⟩
        have h1 : ¬ (lastIdx mods (lowerStr pm.Name) = some i ∧
            ∃ dn ∈ pm.Modules, keyOf mods dn = k) := by
          intro hh
          exact hcon ⟨pm, List.mem_cons_self _ _, hh⟩
        rw [(hlook' i k).2 hw, (hlook1 i k).2 h1]

theorem fold_recs_none {mods : List Module} (hne : ∀ m ∈ mods, m.Name ≠ "") :
    ∀ (recs : List Metadata) (ms : List Module), Skel mods ms →
      (∃ pm ∈ recs, ¬ Succ mods pm) →
      recs.foldlM (fun s pm => processRec mods s pm) ms = none := by
  intro recs
  induction recs with
  | nil =>
    rintro ms _ ⟨pm, hpm, -⟩
    cases hpm
  | cons pm recs ih =>
    rintro ms hsk ⟨q, hq, hfail⟩
    rcases List.mem_cons.mp hq with h1 | h2
    · subst h1
      rw [List.foldlM_cons, processRec_none hsk hfail]
      rfl
    · by_cases hs : Succ mods pm
      · obtain ⟨ms1, hstep, hsk1, -⟩ := processRec_some hne hsk hs
        rw [List.foldlM_cons, hstep]
        exact ih ms1 hsk1 ⟨q, h2, hfail⟩
      · rw [List.foldlM_cons, processRec_none hsk hs]
        rfl

theorem BDG_description {mods : List Module} {recs : List Metadata} {ms : List Module}
    (hne : ∀ m ∈ mods, m.Name ≠ "")
    (h : BuildDependencyGraph mods recs = some ms) :
    Skel mods ms ∧
      (∀ pm ∈ recs, Succ mods pm) ∧
      ∀ i k, (Written mods recs i k → lookAt ms i k = some (Vval mods k)) ∧
        (¬ Written mods recs i k → lookAt ms i k = lookAt mods i k) := by
  have hall : ∀ pm ∈ recs, Succ mods pm := by
    by_contra hcon
    push_neg at hcon
    obtain ⟨pm, hpm, hfail⟩ := hcon
    have hnone : BuildDependencyGraph mods recs = none :=
      fold_recs_none hne recs mods (skel_refl mods) ⟨pm, hpm, hfail⟩
    rw [hnone] at h
    cases h
  obtain ⟨ms', hfold, hsk', hlook'⟩ := fold_recs hne recs mods (skel_refl mods) hall
  have hms : BuildDependencyGraph mods recs = some ms' := hfold
  rw [h] at hms
  obtain rfl : ms = ms' := Option.some.inj hms
  exact ⟨hsk', hall, hlook'⟩

theorem BDG_some_of_succ {mods : List Module} {recs : List Metadata}
    (hne : ∀ m ∈ mods, m.Name ≠ "") (hall : ∀ pm ∈ recs, Succ mods pm) :
    ∃ ms, BuildDependencyGraph mods recs = some ms := by
  obtain ⟨ms', hfold, -, -⟩ := fold_recs hne recs mods (skel_refl mods) hall
  exact ⟨ms', hfold⟩

theorem skel_data_eq {a b c : List Module} (h1 : Skel a b) (h2 : Skel a c) (i : Nat) :
    (b.get? i).map Module.data = (c.get? i).map Module.data := by
  rcases skel_get? h1 i with ⟨ha, hb⟩ | ⟨x, y, hx, hy, hr⟩
  · rcases skel_get? h2 i with ⟨ha2, hc⟩ | ⟨x2, y2, hx2, hy2, hr2⟩
    · rw [hb, hc]
    · rw [hx2] at ha
      cases ha
  · rcases skel_get? h2 i with ⟨ha2, hc⟩ | ⟨x2, y2, hx2, hy2, hr2⟩
    · rw [hx] at ha2
      cases ha2
    · rw [hy, hy2]
      rw [hx] at hx2
      obtain rfl : x = x2 := Option.some.inj hx2
      rw [Option.map_some', Option.map_some', ← hr.1, ← hr2.1]

/-! ### Lemmas on the home-page override and on the metadata-table merge -/

theorem strLength_pos {s : String} (h : s ≠ "") : s.length > 0 := by
  cases s with
  | mk l =>
    cases l with
    | nil => exact absurd rfl h
    | cons c cs =>
      show (String.mk (c :: cs)).data.length > 0
      simp

theorem deriveIdentifiers_spec (md : Metadata) :
    (deriveIdentifiers md).HomePage = md.HomePage ∧
    (deriveIdentifiers md).Name = md.Name ∧
    (deriveIdentifiers md).Version = md.Version ∧
    (md.HomePage = "" →
      (deriveIdentifiers md).PackageURL = BuildPackageUrl md.Name md.Version) ∧
    (md.HomePage ≠ "" → (deriveIdentifiers md).PackageURL = md.HomePage) := by
  refine ⟨rfl, rfl, rfl, ?_, ?_⟩
  · intro h
    show (if md.HomePage.length > 0 then md.HomePage
          else BuildPackageUrl md.Name md.Version) = BuildPackageUrl md.Name md.Version
    rw [h]
    rfl
  · intro h
    show (if md.HomePage.length > 0 then md.HomePage
          else BuildPackageUrl md.Name md.Version) = md.HomePage
    rw [if_pos (strLength_pos h)]

theorem lookupA_none_of_not_mem {α : Type} {m : List (String × α)} {k : String}
    (h : ¬ k ∈ m.map Prod.fst) : lookupA m k = none := by
  induction m with
  | nil => rfl
  | cons p rest ih =>
    obtain ⟨k0, v0⟩ := p
    have hk : ¬ k0 = k := by
      intro hh
      exact h (by simp [hh])
    simp only [lookupA, if_neg hk]
    apply ih
    intro hh
    apply h
    simp only [List.map_cons, List.mem_cons]
    exact Or.inr hh

theorem foldl_insert_lookup_skip {rest : List (String × Metadata)} {k : String}
    (h : ¬ k ∈ rest.map Prod.fst) :
    ∀ X : List (String × Metadata),
      lookupA (rest.foldl (fun nr kv => insertAssoc nr kv.1 kv.2) X) k = lookupA X k := by
  induction rest with
  | nil => intro X; rfl
  | cons p rest2 ih =>
    intro X
    simp only [List.map_cons, List.mem_cons] at h
    push_neg at h
    simp only [List.foldl_cons]
    rw [ih h.2, lookupA_insertAssoc, if_neg h.1]

theorem merge_lookup_root {root : List (String × Metadata)}
    (hnd : (root.map Prod.fst).Nodup) :
    ∀ (nonroot : List (String × Metadata)) (k : String) (v : Metadata),
      lookupA root k = some v →
      lookupA (MergeMetadataMap root nonroot) k = some v := by
  induction root with
  | nil =>
    intro nonroot k v h
    cases h
  | cons p rest ih =>
    intro nonroot k v h
    obtain ⟨k0, v0⟩ := p
    simp only [List.map_cons, List.nodup_cons] at hnd
    by_cases hk : k0 = k
    · subst hk
      simp only [lookupA, eq_self_iff_true, if_true, Option.some.injEq] at h
      subst h
      show lookupA (rest.foldl (fun nr kv => insertAssoc nr kv.1 kv.2)
        (insertAssoc nonroot k0 v0)) k0 = some v0
      rw [foldl_insert_lookup_skip hnd.1, lookupA_insertAssoc, if_pos rfl]
    · simp only [lookupA, if_neg hk] at h
      exact ih hnd.2 (insertAssoc nonroot k0 v0) k v h

theorem merge_lookup_nonroot :
    ∀ (root nonroot : List (String × Metadata)) (k : String),
      lookupA root k = none →
      lookupA (MergeMetadataMap root nonroot) k = lookupA nonroot k := by
  intro root
  induction root with
  | nil =>
    intro nonroot k _
    rfl
  | cons p rest ih =>
    intro nonroot k h
    obtain ⟨k0, v0⟩ := p
    by_cases hk : k0 = k
    · rw [lookupA, if_pos hk] at h
      cases h
    · rw [lookupA, if_neg hk] at h
      show lookupA (MergeMetadataMap rest (insertAssoc nonroot k0 v0)) k =
        lookupA nonroot k
      rw [ih (insertAssoc nonroot k0 v0) k h, lookupA_insertAssoc,
        if_neg (fun hh => hk hh.symm)]

/-! ### The claims -/

/-- Claim C1 (refuted by the code, in favour of the code's own comment):
after a failed fetch the record is supposed to keep `Name` equal to the
package name and every other field equal to the sentinel, with parsing
skipped.  `BuildMetadata` does call the sentinel writer on error, but then
falls through to `ParseMetadata` (there is no early return), which overwrites
every raw field — `Name` included — with the empty-string lookups of an empty
field map.  Evaluated at a package whose fetch fails with empty output: the
final record has `Name = ""` (not the package name) and `Version = ""` (not
the sentinel). -/
theorem c1_fetch_error_record_clobbered :
    (BuildMetadata ("", true) "pkg" emptyMetadata).Name = "" ∧
    (BuildMetadata ("", true) "pkg" emptyMetadata).Name ≠ "pkg" ∧
    (BuildMetadata ("", true) "pkg" emptyMetadata).Version = "" ∧
    (BuildMetadata ("", true) "pkg" emptyMetadata).Version ≠ NOASSERTION := by
  refine ⟨by decide, by decide, by decide, by decide⟩

/-- Claim C2 (refuted by the code, in favour of the spec's tolerance design):
a dependency edge whose lookups miss is supposed to be silently skipped.
Instead: (1) when the owning module's lookup misses, the owner is the zero
module, whose nil dependency map makes the first insertion panic
(`BuildDependencyGraph` is rendered `none`, not a successful return); (2)
when the dependency's lookup misses, an entry is inserted after all — the
copy of the zero module, keyed by the empty string. -/
theorem c2_graph_link_miss_not_skipped :
    BuildDependencyGraph [mkMod "a" "1"] [recMD "zzz" ["a"]] = none ∧
    (BuildDependencyGraph [mkMod "a" "1"] [recMD "a" ["zzz"]]).map
        (fun ms => ms.map (fun m => m.Modules)) =
      some [some [("", copyModule zeroModule)]] :=
  ⟨rfl, rfl⟩

/-- Claim C3 (refuted by the code, in favour of the spec's stated
requirement): on an empty module list, `RemoveDuplicateRootModule` evaluates
`modules[0]` and `fetchRootModule` ends in `return modules[0], nil`; both are
index-out-of-range panics (rendered `none`), not descriptive errors — neither
function has an error path for this case. -/
theorem c3_empty_module_list_panics :
    RemoveDuplicateRootModule [] = none ∧ fetchRootModuleResult [] = none :=
  ⟨rfl, rfl⟩

/-- Claim C4, counterexample: the entry inserted for a resolved dependency is
not value-equal to the dependency's module in every field.  For the module
list `[a, b]` and one record linking a to b, the inserted entry is
`copyModule b`, whose `Modules` field is the nil map — while `b`'s own
`Modules` field is an initialized (empty) map, as `BuildModule` always
produces.  The two differ. -/
theorem c4_counterexample :
    (BuildDependencyGraph [mkMod "a" "1", mkMod "b" "2"] [recMD "a" ["b"]] =
      some [Module.mk (mkMod "a" "1").data (some [("b", copyModule (mkMod "b" "2"))]),
            mkMod "b" "2"]) ∧
    copyModule (mkMod "b" "2") ≠ mkMod "b" "2" :=
  ⟨rfl, fun h => Option.noConfusion (congrArg Module.Modules h)⟩

/-- Claim C4, amended: the inserted entry is a field-for-field copy of the
dependency module in every scalar field — Version, Name, Path, LocalPath,
Supplier, PackageURL, CheckSum, PackageHomePage, LicenseConcluded,
LicenseDeclared, CommentsLicense, OtherLicense, Copyright, PackageComment,
Root — keyed by the dependency's exact-cased Name, but its `Modules` field is
left as the nil map rather than copied; being a fresh value, mutating the
copy afterwards cannot change the original.  The concrete conjunct shows the
insertion inside `BuildDependencyGraph` producing exactly this copy under the
exact-cased key. -/
theorem c4_amended :
    (∀ d : Module,
      (copyModule d).data.Version = d.data.Version ∧
      (copyModule d).data.Name = d.data.Name ∧
      (copyModule d).data.Path = d.data.Path ∧
      (copyModule d).data.LocalPath = d.data.LocalPath ∧
      (copyModule d).data.Supplier = d.data.Supplier ∧
      (copyModule d).data.PackageURL = d.data.PackageURL ∧
      (copyModule d).data.CheckSum = d.data.CheckSum ∧
      (copyModule d).data.PackageHomePage = d.data.PackageHomePage ∧
      (copyModule d).data.LicenseConcluded = d.data.LicenseConcluded ∧
      (copyModule d).data.LicenseDeclared = d.data.LicenseDeclared ∧
      (copyModule d).data.CommentsLicense = d.data.CommentsLicense ∧
      (copyModule d).data.OtherLicense = d.data.OtherLicense ∧
      (copyModule d).data.Copyright = d.data.Copyright ∧
      (copyModule d).data.PackageComment = d.data.PackageComment ∧
      (copyModule d).data.Root = d.data.Root ∧
      (copyModule d).Modules = none) ∧
    (BuildDependencyGraph [mkMod "x" "7", mkMod "Dep" "8"] [recMD "x" ["dep"]] =
      some [Module.mk (mkMod "x" "7").data (some [("Dep", copyModule (mkMod "Dep" "8"))]),
            mkMod "Dep" "8"]) :=
  ⟨fun _ => ⟨rfl, rfl, rfl, rfl, rfl, rfl, rfl, rfl, rfl, rfl, rfl, rfl, rfl, rfl, rfl, rfl⟩,
   rfl⟩

/-- Claim C5, counterexample: a line whose key is followed by no value token
is not skipped.  Parsing the single line `"Key:"` contributes the entry
`("key", "")` to the field map instead of leaving it empty. -/
theorem c5_counterexample :
    ParseMetadataMap "Key:" = [("key", "")] ∧ ParseMetadataMap "Key:" ≠ [] :=
  ⟨by decide, by decide⟩

/-- Claim C5, amended: a line containing no colon (its colon-split is a
single element) contributes nothing to the field map; a line consisting of a
key followed by a colon and nothing else is processed and contributes the
entry mapping the lower-cased key to the empty string. -/
theorem c5_amended :
    (∀ (mp : List (String × String)) (line : String),
      (splitGo line ':').length ≤ 1 → parseLine mp line = mp) ∧
    (∀ (mp : List (String × String)) (line key : String),
      splitGo line ':' = [key, ""] →
      parseLine mp line = insertAssoc mp (lowerStr key) "") := by
  constructor
  · intro mp line h
    unfold parseLine
    cases hs : splitGo line ':' with
    | nil => rfl
    | cons a rest =>
      cases rest with
      | nil => rfl
      | cons b rest2 =>
        rw [hs] at h
        simp at h
  · intro mp line key h
    unfold parseLine
    rw [h]
    rfl

/-- Claim C5, witness for the amended statement: a colon-free line leaves the
map unchanged, and `"Key:"` stores `("key", "")`. -/
theorem c5_amended_witness :
    parseLine [] "abc" = [] ∧
    parseLine [] "Key:" = insertAssoc [] (lowerStr "Key") "" :=
  ⟨c5_amended.1 [] "abc" (by decide), c5_amended.2 [] "Key:" "Key" (by decide)⟩

/-- Claim C6, counterexample: the home-page override does not strip only a
leading scheme — `httpReplacer` deletes every occurrence of `https://` and
`http://`.  For a record fetched with home page `http://a#http://b`, the
code produces `PackageURL = "a#b"`, while stripping only the leading scheme
(as the claim reads) would give `"a#http://b"`. -/
theorem c6_counterexample :
    (BuildMetadata ("Home-page:http://a#http://b", false) "x" emptyMetadata).PackageURL =
      "a#b" ∧
    stripSchemeLeading "http://a#http://b" = "a#http://b" ∧
    (BuildMetadata ("Home-page:http://a#http://b", false) "x" emptyMetadata).PackageURL ≠
      stripSchemeLeading "http://a#http://b" :=
  ⟨by decide, by decide, by decide⟩

/-- Claim C6, amended: when the produced record's HomePage is empty, its
PackageURL equals the registry-template URL built from its Name and Version;
when HomePage is non-empty, PackageURL is overridden to equal HomePage —
where the HomePage field itself is the raw "home-page" value with every
occurrence of `https://` or `http://` deleted in one left-to-right pass (so
a leading scheme is stripped, along with any later occurrence). -/
theorem c6_amended :
    (∀ (matadata : Metadata) (datamap : List (String × String)),
      (SetMetadataValues matadata datamap).HomePage =
        httpReplacerReplace (lookupD datamap KeyHomePage)) ∧
    (∀ (fetched : String × Bool) (packagename : String) (metadata : Metadata),
      ((BuildMetadata fetched packagename metadata).HomePage = "" →
        (BuildMetadata fetched packagename metadata).PackageURL =
          BuildPackageUrl (BuildMetadata fetched packagename metadata).Name
            (BuildMetadata fetched packagename metadata).Version) ∧
      ((BuildMetadata fetched packagename metadata).HomePage ≠ "" →
        (BuildMetadata fetched packagename metadata).PackageURL =
          (BuildMetadata fetched packagename metadata).HomePage)) := by
  constructor
  · intro matadata datamap
    unfold SetMetadataValues
    split
    · rfl
    · rfl
  · intro fetched packagename metadata
    have hspec := deriveIdentifiers_spec
      (ParseMetadata
        (if fetched.2 then SetMetadataToNoAssertion metadata packagename else metadata)
        fetched.1)
    obtain ⟨hhp, hname, hver, hurl0, hurl1⟩ := hspec
    constructor
    · intro h
      have h2 := hurl0 (by rw [← hhp]; exact h)
      rw [show (BuildMetadata fetched packagename metadata).Name =
          (ParseMetadata (if fetched.2 then SetMetadataToNoAssertion metadata packagename
            else metadata) fetched.1).Name from hname,
        show (BuildMetadata fetched packagename metadata).Version =
          (ParseMetadata (if fetched.2 then SetMetadataToNoAssertion metadata packagename
            else metadata) fetched.1).Version from hver]
      exact h2
    · intro h
      have h2 := hurl1 (by rw [← hhp]; exact h)
      rw [show (BuildMetadata fetched packagename metadata).HomePage =
          (ParseMetadata (if fetched.2 then SetMetadataToNoAssertion metadata packagename
            else metadata) fetched.1).HomePage from hhp]
      exact h2

/-- Claim C6, witness: a record with no home page takes the registry-template
PackageURL; the stripped home page `example.com/pkg` overrides it when
present. -/
theorem c6_amended_witness :
    (SetMetadataValues emptyMetadata [("home-page", "https://example.com/pkg")]).HomePage =
      httpReplacerReplace (lookupD [("home-page", "https://example.com/pkg")] KeyHomePage) ∧
    (BuildMetadata ("Name: x", false) "x" emptyMetadata).PackageURL =
      BuildPackageUrl (BuildMetadata ("Name: x", false) "x" emptyMetadata).Name
        (BuildMetadata ("Name: x", false) "x" emptyMetadata).Version ∧
    (BuildMetadata ("Name: x\nHome-page: https://example.com/pkg", false) "x"
        emptyMetadata).PackageURL =
      (BuildMetadata ("Name: x\nHome-page: https://example.com/pkg", false) "x"
        emptyMetadata).HomePage :=
  ⟨c6_amended.1 emptyMetadata [("home-page", "https://example.com/pkg")],
   (c6_amended.2 ("Name: x", false) "x" emptyMetadata).1 (by decide),
   (c6_amended.2 ("Name: x\nHome-page: https://example.com/pkg", false) "x"
     emptyMetadata).2 (by decide)⟩

/-- Claim C7, counterexample: the parser does not take element 1 of the
colon-split verbatim as the value — it trims it first.  For the line
`"k: a"` the split is `["k", " a"]`, yet the stored value is `"a"`, not
`" a"`. -/
theorem c7_counterexample :
    splitGo "k: a" ':' = ["k", " a"] ∧
    parseLine [] "k: a" = [("k", "a")] ∧
    (("a" : String) ≠ " a") :=
  ⟨by decide, by decide, by decide⟩

/-- Claim C7, amended: for a parsed line whose colon-split is
`key :: v1 :: rest`, the stored value is element 1 trimmed of surrounding
whitespace with the remaining elements re-joined verbatim onto it, each
preceded by a literal colon, under the lower-cased key — so a value
containing colons (e.g. a URL) is preserved once the field key is removed,
as the concrete conjunct shows. -/
theorem c7_amended :
    (∀ (mp : List (String × String)) (line key v1 : String) (rest : List String),
      splitGo line ':' = key :: v1 :: rest →
      parseLine mp line =
        insertAssoc mp (lowerStr key)
          (rest.foldl (fun value r => value ++ ":" ++ r) (trimStr v1))) ∧
    parseLine [] "Home-page: https://example.com/pkg" =
      [("home-page", "https://example.com/pkg")] := by
  constructor
  · intro mp line key v1 rest h
    unfold parseLine
    rw [h]
  · decide

/-- Claim C7, witness: the general statement applied to the line
`"Home-page: https://example.com/pkg"`, whose value keeps its colon. -/
theorem c7_amended_witness :
    parseLine [] "Home-page: https://example.com/pkg" =
      insertAssoc [] (lowerStr "Home-page")
        (["//example.com/pkg"].foldl (fun value r => value ++ ":" ++ r)
          (trimStr " https")) :=
  c7_amended.1 [] "Home-page: https://example.com/pkg" "Home-page" " https"
    ["//example.com/pkg"] (by decide)

/-- Claim C8 (confirmed): the "Requires" value, when non-empty, is split on
commas with every element trimmed of surrounding whitespace, order preserved
(so `"a, b ,c"` yields exactly `["a", "b", "c"]`); an empty or absent
"Requires" leaves the dependency-name sequence untouched, hence empty (`[]`,
never a null value — Go slices are rendered as Lean lists) on the freshly
allocated record the decoder parses into. -/
theorem c8_requires_split :
    (∀ (matadata : Metadata) (datamap : List (String × String)),
      lookupD datamap KeyRequires = "a, b ,c" →
      (SetMetadataValues matadata datamap).Modules = ["a", "b", "c"]) ∧
    (∀ (matadata : Metadata) (datamap : List (String × String)),
      (lookupD datamap KeyRequires).length ≠ 0 →
      (SetMetadataValues matadata datamap).Modules =
        (splitGo (lookupD datamap KeyRequires) ',').map trimStr) ∧
    (∀ (matadata : Metadata) (datamap : List (String × String)),
      lookupD datamap KeyRequires = "" →
      (SetMetadataValues matadata datamap).Modules = matadata.Modules) ∧
    (∀ datamap : List (String × String),
      lookupD datamap KeyRequires = "" →
      (SetMetadataValues emptyMetadata datamap).Modules = []) := by
  have hgen : ∀ (matadata : Metadata) (datamap : List (String × String)),
      (lookupD datamap KeyRequires).length ≠ 0 →
      (SetMetadataValues matadata datamap).Modules =
        (splitGo (lookupD datamap KeyRequires) ',').map trimStr := by
    intro matadata datamap h
    unfold SetMetadataValues
    rw [if_pos h]
  have hempty : ∀ (matadata : Metadata) (datamap : List (String × String)),
      lookupD datamap KeyRequires = "" →
      (SetMetadataValues matadata datamap).Modules = matadata.Modules := by
    intro matadata datamap h
    unfold SetMetadataValues
    rw [if_neg (by rw [h]; decide)]
  refine ⟨?_, hgen, hempty, ?_⟩
  · intro matadata datamap h
    rw [hgen matadata datamap (by rw [h]; decide), h]
    decide
  · intro datamap h
    rw [hempty emptyMetadata datamap h]
    rfl

/-- Claim C8, witness: concrete field maps with `Requires = "a, b ,c"`,
with a colon-free map missing the key, exercising every hypothesis. -/
theorem c8_requires_split_witness :
    (SetMetadataValues emptyMetadata [("requires", "a, b ,c")]).Modules =
      ["a", "b", "c"] ∧
    (SetMetadataValues emptyMetadata [("requires", "a, b ,c")]).Modules =
      (splitGo (lookupD [("requires", "a, b ,c")] KeyRequires) ',').map trimStr ∧
    (SetMetadataValues (recMD "m" ["keep"]) []).Modules = (recMD "m" ["keep"]).Modules ∧
    (SetMetadataValues emptyMetadata []).Modules = [] :=
  ⟨c8_requires_split.1 emptyMetadata [("requires", "a, b ,c")] (by decide),
   c8_requires_split.2.1 emptyMetadata [("requires", "a, b ,c")] (by decide),
   c8_requires_split.2.2.1 (recMD "m" ["keep"]) [] (by decide),
   c8_requires_split.2.2.2 [] (by decide)⟩

/-- Claim C9, counterexample: linking is not order-independent for every
(modules, metadataTable) pair.  With a module whose Name is the empty string
in the list, a record naming an unresolvable dependency and a record naming
the empty-named module write different values under the same key `""` of the
same owner, so the two iteration orders of the table leave different entries
behind: the dependency stored under `""` has Version `"9"` in one order and
Version `""` in the other. -/
theorem c9_counterexample :
    (BuildDependencyGraph [mkMod "a" "1", mkMod "" "9"]
        [recMD "a" ["zzz"], recMD "a" [""]]).map
      (fun ms => (lookAt ms 0 "").map (fun d => d.data.Version)) =
        some (some "9") ∧
    (BuildDependencyGraph [mkMod "a" "1", mkMod "" "9"]
        [recMD "a" [""], recMD "a" ["zzz"]]).map
      (fun ms => (lookAt ms 0 "").map (fun d => d.data.Version)) =
        some (some "") ∧
    List.Perm [recMD "a" ["zzz"], recMD "a" [""]] [recMD "a" [""], recMD "a" ["zzz"]] ∧
    (some (some "9") : Option (Option String)) ≠ some (some "") :=
  ⟨by decide, by decide, List.Perm.swap _ _ _, by decide⟩

/-- Claim C9, amended: provided no module in the list has an empty Name,
graph linking is idempotent and order-independent.  If linking the records in
one iteration order succeeds with result `ms`, then (1) linking them in any
other iteration order also succeeds, with a module list carrying the same
scalar fields position for position and extensionally identical dependency
maps (`lookAt` agrees at every position and key), and (2) re-running the link
pass on `ms` itself succeeds and changes nothing, extensionally. -/
theorem c9_amended (mods ms : List Module) (recs recs' : List Metadata)
    (hne : ∀ m ∈ mods, m.Name ≠ "")
    (hperm : List.Perm recs recs')
    (h1 : BuildDependencyGraph mods recs = some ms) :
    (∃ ms', BuildDependencyGraph mods recs' = some ms' ∧
      (∀ i, (ms'.get? i).map Module.data = (ms.get? i).map Module.data) ∧
      (∀ i k, lookAt ms' i k = lookAt ms i k)) ∧
    (∃ ms2, BuildDependencyGraph ms recs = some ms2 ∧
      (∀ i, (ms2.get? i).map Module.data = (ms.get? i).map Module.data) ∧
      (∀ i k, lookAt ms2 i k = lookAt ms i k)) := by
  obtain ⟨hsk, hall, hlook⟩ := BDG_description hne h1
  constructor
  · have hall' : ∀ pm ∈ recs', Succ mods pm := fun pm hpm =>
      hall pm (hperm.mem_iff.mpr hpm)
    obtain ⟨ms', h2⟩ := BDG_some_of_succ hne hall'
    obtain ⟨hsk', -, hlook'⟩ := BDG_description hne h2
    refine ⟨ms', h2, fun i => skel_data_eq hsk' hsk i, ?_⟩
    intro i k
    by_cases hw : Written mods recs i k
    · rw [(hlook' i k).1 ((Written_perm hperm i k).mp hw), (hlook i k).1 hw]
    · rw [(hlook' i k).2 (fun hh => hw ((Written_perm hperm i k).mpr hh)),
        (hlook i k).2 hw]
  · have hne2 : ∀ m ∈ ms, m.Name ≠ "" := hne_congr hsk hne
    have hall2 : ∀ pm ∈ recs, Succ ms pm := fun pm hpm =>
      (Succ_congr hsk pm).mp (hall pm hpm)
    obtain ⟨ms2, h2⟩ := BDG_some_of_succ hne2 hall2
    obtain ⟨hsk2, -, hlook2⟩ := BDG_description hne2 h2
    refine ⟨ms2, h2, fun i => skel_data_eq hsk2 (skel_refl ms) i, ?_⟩
    intro i k
    by_cases hw : Written ms recs i k
    · rw [(hlook2 i k).1 hw,
        (hlook i k).1 ((Written_congr hsk recs i k).mpr hw), Vval_congr hsk k]
    · exact (hlook2 i k).2 hw

/-- Claim C9, witness: the amended statement applied to a two-module list
(no empty names), one record, and the identity permutation. -/
theorem c9_amended_witness :
    (∃ ms', BuildDependencyGraph [mkMod "a" "1", mkMod "b" "2"] [recMD "a" ["b"]] =
        some ms' ∧
      (∀ i, (ms'.get? i).map Module.data =
        (([Module.mk (mkMod "a" "1").data (some [("b", copyModule (mkMod "b" "2"))]),
           mkMod "b" "2"] : List Module).get? i).map Module.data) ∧
      (∀ i k, lookAt ms' i k =
        lookAt [Module.mk (mkMod "a" "1").data (some [("b", copyModule (mkMod "b" "2"))]),
                mkMod "b" "2"] i k)) ∧
    (∃ ms2, BuildDependencyGraph
        [Module.mk (mkMod "a" "1").data (some [("b", copyModule (mkMod "b" "2"))]),
         mkMod "b" "2"] [recMD "a" ["b"]] = some ms2 ∧
      (∀ i, (ms2.get? i).map Module.data =
        (([Module.mk (mkMod "a" "1").data (some [("b", copyModule (mkMod "b" "2"))]),
           mkMod "b" "2"] : List Module).get? i).map Module.data) ∧
      (∀ i k, lookAt ms2 i k =
        lookAt [Module.mk (mkMod "a" "1").data (some [("b", copyModule (mkMod "b" "2"))]),
                mkMod "b" "2"] i k)) :=
  c9_amended [mkMod "a" "1", mkMod "b" "2"]
    [Module.mk (mkMod "a" "1").data (some [("b", copyModule (mkMod "b" "2"))]),
     mkMod "b" "2"]
    [recMD "a" ["b"]] [recMD "a" ["b"]]
    (by decide) (List.Perm.refl _) rfl

/-- Claim C10 (confirmed): `MergeMetadataMap` writes every root entry into
the non-root table (root winning on key collision) and returns that same
table; rendered with tables as store references, the returned reference is
the non-root argument, the non-root slot holds the merged contents, and every
other slot — the root table in particular — is untouched. -/
theorem c10_merge_frame (store : List (List (String × Metadata))) (root nonroot : Nat)
    (hne : root ≠ nonroot) (hlt : nonroot < store.length)
    (hnd : ((store.getD root []).map Prod.fst).Nodup) :
    (MergeMetadataMapRef store root nonroot).2 = nonroot ∧
    (MergeMetadataMapRef store root nonroot).1.getD nonroot [] =
      MergeMetadataMap (store.getD root []) (store.getD nonroot []) ∧
    (∀ i, i ≠ nonroot →
      (MergeMetadataMapRef store root nonroot).1.getD i [] = store.getD i []) ∧
    (MergeMetadataMapRef store root nonroot).1.getD root [] = store.getD root [] ∧
    (∀ k v, lookupA (store.getD root []) k = some v →
      lookupA (MergeMetadataMap (store.getD root []) (store.getD nonroot [])) k =
        some v) ∧
    (∀ k, lookupA (store.getD root []) k = none →
      lookupA (MergeMetadataMap (store.getD root []) (store.getD nonroot [])) k =
        lookupA (store.getD nonroot []) k) := by
  have hother : ∀ i, i ≠ nonroot →
      (MergeMetadataMapRef store root nonroot).1.getD i [] = store.getD i [] := by
    intro i hi
    show (store.set nonroot _).getD i [] = store.getD i []
    simp [List.getD_eq_getElem?_getD, List.getElem?_set_ne (fun hh => hi hh.symm)]
  refine ⟨rfl, ?_, hother, hother root hne, ?_, ?_⟩
  · show (store.set nonroot _).getD nonroot [] = _
    simp [List.getD_eq_getElem?_getD, List.getElem?_set_self, hlt]
  · intro k v h
    exact merge_lookup_root hnd (store.getD nonroot []) k v h
  · intro k h
    exact merge_lookup_nonroot (store.getD root []) (store.getD nonroot []) k h

/-- Claim C10, witness: the merge scenario of the specification —
`merge({"a": rootA}, {"a": nonrootA, "b": nonrootB})` — with the two tables
in store slots 0 and 1. -/
theorem c10_merge_frame_witness :
    (MergeMetadataMapRef [[("a", mdSample "rootA")],
        [("a", mdSample "nonrootA"), ("b", mdSample "nonrootB")]] 0 1).2 = 1 ∧
    (MergeMetadataMapRef [[("a", mdSample "rootA")],
        [("a", mdSample "nonrootA"), ("b", mdSample "nonrootB")]] 0 1).1.getD 1 [] =
      MergeMetadataMap
        ([[("a", mdSample "rootA")],
          [("a", mdSample "nonrootA"), ("b", mdSample "nonrootB")]].getD 0 [])
        ([[("a", mdSample "rootA")],
          [("a", mdSample "nonrootA"), ("b", mdSample "nonrootB")]].getD 1 []) ∧
    (MergeMetadataMapRef [[("a", mdSample "rootA")],
        [("a", mdSample "nonrootA"), ("b", mdSample "nonrootB")]] 0 1).1.getD 0 [] =
      [[("a", mdSample "rootA")],
        [("a", mdSample "nonrootA"), ("b", mdSample "nonrootB")]].getD 0 [] := by
  have h := c10_merge_frame
    [[("a", mdSample "rootA")], [("a", mdSample "nonrootA"), ("b", mdSample "nonrootB")]]
    0 1 (by decide) (by decide) (by decide)
  exact ⟨h.1, h.2.1, h.2.2.2.1⟩

end Pip
